import Mathlib

/-!
Verification of the multi-agentic conversation AI system (RAG pipeline,
CRM session management, agent selection).

The Python services are shallowly embedded: Python strings become
`List Char`, Python ints become `Int`/`Nat`, dictionaries become
association lists, the relational store and the vector index become
explicit record states, and fallible calls return `Except`.  A `while`
loop whose termination is in question is embedded with an explicit fuel
parameter: a `none` result means the loop performed at least `fuel`
iterations without terminating.
-/

/- ## Python string primitives (`services/rag_service.py` uses slices,
   `str.rfind`, `str.strip`, `str.lower`, substring tests). -/

/-- Python index normalization for a slice bound on a string of length
`n`: a negative index counts from the end and is clamped at 0, a
nonnegative one is clamped at `n`. -/
def pyIdx (n : Nat) (i : Int) : Nat :=
  if i < 0 then ((n : Int) + i).toNat else min i.toNat n

/-- Python slice `text[a:b]`. -/
def pySlice (l : List Char) (a b : Int) : List Char :=
  (l.take (pyIdx l.length b)).drop (pyIdx l.length a)

/-- Python `text.rfind(c, a, b)` for a single character `c`: the largest
index `i` with `a ≤ i < b` (after normalization) such that `text[i] = c`,
or `-1` when there is none.  The fold scans indices in increasing order,
keeping the last hit. -/
def pyRfindChar (l : List Char) (c : Char) (a b : Int) : Int :=
  let lo := pyIdx l.length a
  let hi := pyIdx l.length b
  (List.range l.length).foldl
    (fun acc i => if (lo ≤ i && i < hi) && l.getD i (Char.ofNat 0) == c then (i : Int) else acc)
    (-1)

/-- Python `text.strip()`: drop whitespace from both ends. -/
def trimChars (l : List Char) : List Char :=
  ((l.dropWhile Char.isWhitespace).reverse.dropWhile Char.isWhitespace).reverse

/-- Python `text.lower()` on one character (ASCII letters, which is all
the keyword matching in the sources needs). -/
def lowerChar (c : Char) : Char :=
  if 65 ≤ c.toNat && c.toNat ≤ 90 then Char.ofNat (c.toNat + 32) else c

/-- Python `text.lower()`. -/
def lowerStr (l : List Char) : List Char := l.map lowerChar

/-- Python `needle in hay` for strings: substring containment. -/
def containsSub (hay needle : List Char) : Bool :=
  match hay with
  | [] => needle.isEmpty
  | _ :: t => needle.isPrefixOf hay || containsSub t needle

/- ## `RAGService._split_text` (src/services/rag_service.py lines 219-252)

The Python loop is

    while start < len(text):
        end = start + chunk_size
        if end < len(text):
            sentence_end = text.rfind('.', start, end)
            if sentence_end > start:
                end = sentence_end + 1
            else:
                word_end = text.rfind(' ', start, end)
                if word_end > start:
                    end = word_end
        chunks.append(text[start:end].strip())
        start = end - overlap
        if start >= len(text):
            break

The trailing `break` re-tests exactly the loop guard, so the loop is the
guard-tested recursion below.  `start` is carried as an `Int` because
`end - overlap` can go negative in Python. -/

/-- One-step body plus recursion of the `_split_text` while loop, with
fuel; `none` means the loop ran `fuel` iterations without terminating. -/
def splitLoop (cs ov : Nat) (text : List Char) :
    Nat → Int → List (List Char) → Option (List (List Char))
  | 0, _, _ => none
  | fuel + 1, start, acc =>
    if start < (text.length : Int) then
      let e0 : Int := start + (cs : Int)
      let e : Int :=
        if e0 < (text.length : Int) then
          let sentenceEnd := pyRfindChar text '.' start e0
          if sentenceEnd > start then sentenceEnd + 1
          else
            let wordEnd := pyRfindChar text ' ' start e0
            if wordEnd > start then wordEnd else e0
        else e0
      splitLoop cs ov text fuel (e - (ov : Int)) (acc ++ [trimChars (pySlice text start e)])
    else some acc

/-- `RAGService._split_text`: texts no longer than `chunk_size` are
returned whole (verbatim, no strip on that path); longer texts go
through the chunking loop. -/
def splitText (fuel cs ov : Nat) (text : List Char) : Option (List (List Char)) :=
  if text.length ≤ cs then some [text]
  else splitLoop cs ov text fuel 0 []

/- ## Facts about `trimChars` -/

/-- `trimChars` phrased with Mathlib's `rdropWhile`. -/
theorem trimChars_eq_rdropWhile (l : List Char) :
    trimChars l = (l.dropWhile Char.isWhitespace).rdropWhile Char.isWhitespace := rfl

/-- Stripping is idempotent: a chunk the loop has stripped is left fixed
by a second strip. -/
theorem trimChars_idem (l : List Char) : trimChars (trimChars l) = trimChars l := by
  rw [trimChars_eq_rdropWhile, trimChars_eq_rdropWhile]
  set x := l.dropWhile Char.isWhitespace with hx
  have hdrop : (x.rdropWhile Char.isWhitespace).dropWhile Char.isWhitespace
      = x.rdropWhile Char.isWhitespace := by
    rw [List.dropWhile_eq_self_iff]
    intro hl
    have hpre := List.rdropWhile_prefix Char.isWhitespace x
    have hxlen : 0 < x.length := Nat.lt_of_lt_of_le hl hpre.length_le
    have hget : (x.rdropWhile Char.isWhitespace).get ⟨0, hl⟩ = x.get ⟨0, hxlen⟩ := by
      simpa using hpre.getElem hl
    rw [hget]
    exact List.dropWhile_get_zero_not Char.isWhitespace l hxlen
  rw [hdrop, List.rdropWhile_idempotent]

/- ## Claim C2: termination of the chunking loop -/

/-- With `chunk_size = overlap = 10` on a run of 11 identical letters
(no sentence or word boundary), one loop iteration leaves `start` at 0:
the next `end` is `0 + 10`, the boundary searches find nothing, and the
new `start` is `10 - 10 = 0`.  The alleged clamp of the advance does not
exist in the code, so the loop never exits. -/
theorem splitLoop_fixedpoint_diverges :
    ∀ (fuel : Nat) (acc : List (List Char)),
      splitLoop 10 10 (List.replicate 11 'a') fuel 0 acc = none := by
  intro fuel
  induction fuel with
  | zero => intro acc; rfl
  | succ n ih =>
    intro acc
    rw [show splitLoop 10 10 (List.replicate 11 'a') (n + 1) 0 acc =
        splitLoop 10 10 (List.replicate 11 'a') n 0 (acc ++ [List.replicate 10 'a']) from rfl]
    exact ih _

/-- C2: FALSE of the code as written — the claim (and the spec) say the
chunking loop terminates for every configuration because the advance is
clamped to be positive, but no such clamp exists in `_split_text`.  With
the misconfiguration `chunk_size = 10`, `overlap = 10` and the 11-letter
text `aaaaaaaaaaa`, the window start is stuck at 0 forever: for every
fuel bound the embedded loop fails to terminate within that bound.  The
code's own `# Prevent infinite loop` comment documents the intended
guarantee that the spec states, so this is a bug in the code. -/
theorem splitText_diverges_when_overlap_eq_chunk_size :
    ∀ fuel : Nat, splitText fuel 10 10 (List.replicate 11 'a') = none := by
  intro fuel
  have h : ¬((List.replicate 11 'a').length ≤ 10) := by decide
  rw [splitText, if_neg h]
  exact splitLoop_fixedpoint_diverges fuel []

/- ## Claim C3: the short-text path and chunk trimming -/

/-- C3 counterexample: the claim says a text no longer than `chunk_size`
comes back as one chunk equal to the whitespace-trimmed input, and that
every returned chunk is trimmed.  But the short-text path of
`_split_text` is `return [text]` with no `.strip()`: splitting the
5-character text `"  a  "` with `chunk_size = 10` returns the text
verbatim, which differs from its trimmed form `"a"`. -/
theorem splitText_short_not_trimmed :
    splitText 100 10 2 "  a  ".toList = some ["  a  ".toList] ∧
      trimChars "  a  ".toList ≠ "  a  ".toList := by
  refine ⟨rfl, by decide⟩

/-- C3 (amended): for a text with `len(text) ≤ chunk_size`, `_split_text`
returns exactly one chunk equal to the input text verbatim (the
short-text path does not strip); chunks produced by the splitting loop
on longer texts are each trimmed of leading and trailing whitespace. -/
theorem splitText_short_verbatim_loop_trimmed :
    ∀ (fuel cs ov : Nat) (text : List Char),
      (text.length ≤ cs → splitText fuel cs ov text = some [text]) ∧
      (∀ res, splitText fuel cs ov text = some res → cs < text.length →
        ∀ c ∈ res, trimChars c = c) := by
  intro fuel cs ov text
  constructor
  · intro h
    rw [splitText, if_pos h]
  · intro res hres hlt c hc
    rw [splitText, if_neg (Nat.not_le_of_lt hlt)] at hres
    have main : ∀ (n : Nat) (start : Int) (acc : List (List Char)),
        (∀ c ∈ acc, trimChars c = c) →
        splitLoop cs ov text n start acc = some res →
        ∀ c ∈ res, trimChars c = c := by
      intro n
      induction n with
      | zero => intro start acc _ h; exact absurd h (by simp [splitLoop])
      | succ m ih =>
        intro start acc hacc h
        rw [splitLoop] at h
        by_cases hs : start < (text.length : Int)
        · rw [if_pos hs] at h
          refine ih _ _ ?_ h
          intro c hc
          rcases List.mem_append.mp hc with h1 | h2
          · exact hacc c h1
          · rw [List.mem_singleton.mp h2]
            exact trimChars_idem _
        · rw [if_neg hs] at h
          have : acc = res := Option.some.inj h
          intro c hc
          exact hacc c (this ▸ hc)
    exact main fuel 0 [] (by intro c hc; exact absurd hc (List.not_mem_nil c)) hres c hc

/-- Witness for C3 (amended): the short path at `chunk_size = 10` on
`"  a  "` gives the verbatim text, and a terminating run of the loop
(`chunk_size = 10`, `overlap = 0`, eleven letters) yields chunks that
are all fixed by trimming. -/
theorem splitText_short_verbatim_loop_trimmed_witness :
    splitText 100 10 2 "  a  ".toList = some ["  a  ".toList] ∧
      (∀ c ∈ [List.replicate 10 'a', ['a']], trimChars c = c) := by
  constructor
  · exact (splitText_short_verbatim_loop_trimmed 100 10 2 "  a  ".toList).1 (by decide)
  · exact (splitText_short_verbatim_loop_trimmed 100 10 0 (List.replicate 11 'a')).2
      [List.replicate 10 'a', ['a']] (by decide) (by decide)

/- ## `ChatAgent._select_agent` (src/services/chat_agent.py lines 278-310) -/

/-- The outcome of agent selection: which entry of `self.agents` the
method returns. -/
inductive AgentName where
  | realEstate : AgentName
  | crm : AgentName
  | general : AgentName
deriving DecidableEq

/-- The `real_estate_keywords` list of `_select_agent`, verbatim. -/
def realEstateKeywords : List (List Char) :=
  List.map String.toList
    ["property", "rent", "lease", "office", "space", "building", "address",
     "square feet", "sf", "floor", "suite", "broker", "real estate",
     "commercial", "residential", "listing", "available", "price"]

/-- The `crm_keywords` list of `_select_agent`, verbatim. -/
def crmKeywords : List (List Char) :=
  List.map String.toList
    ["my name is", "i am", "contact", "email", "phone", "company",
     "call me", "reach me", "information", "details"]

/-- `any(keyword in s for keyword in kws)`. -/
def anyKeyword (kws : List (List Char)) (s : List Char) : Bool :=
  kws.any (fun kw => containsSub s kw)

/-- A history entry as `_select_agent` sees it: a dict with `role` and
`content` (only `content` is consulted). -/
structure HistMsg where
  role : String
  content : List Char

/-- `" ".join([msg["content"] for msg in history[-3:]])`. -/
def joinedLastThree (history : List HistMsg) : List Char :=
  List.intercalate [' '] ((history.drop (history.length - 3)).map HistMsg.content)

/-- `ChatAgent._select_agent`: keyword priority routing over the
lowercased current message, falling back to the last three history
entries, then to the general agent. -/
def selectAgent (message : List Char) (history : List HistMsg) : AgentName :=
  let messageLower := lowerStr message
  if anyKeyword realEstateKeywords messageLower then .realEstate
  else if anyKeyword crmKeywords messageLower then .crm
  else if !history.isEmpty then
    if anyKeyword realEstateKeywords (lowerStr (joinedLastThree history)) then .realEstate
    else .general
  else .general

/-- C6: agent selection is a pure first-match-wins priority.  A
real-estate keyword in the lowercased current message selects the
real-estate agent — also when CRM keywords are present, since that test
comes first; otherwise a CRM keyword selects the CRM agent; otherwise a
real-estate keyword in the lowercased join of the last three history
contents selects the real-estate agent; otherwise the general agent.
(The code's `if history:` guard is redundant: an empty history joins to
the empty string, which contains no keyword.) -/
theorem selectAgent_first_match_priority :
    ∀ (message : List Char) (history : List HistMsg),
      selectAgent message history =
        if anyKeyword realEstateKeywords (lowerStr message) then .realEstate
        else if anyKeyword crmKeywords (lowerStr message) then .crm
        else if anyKeyword realEstateKeywords (lowerStr (joinedLastThree history)) then .realEstate
        else .general := by
  intro message history
  cases history with
  | nil =>
    have hempty : anyKeyword realEstateKeywords (lowerStr (joinedLastThree [])) = false := rfl
    rw [selectAgent, hempty]
    simp
  | cons a t =>
    rw [selectAgent]
    simp [List.isEmpty]

/- ## `ChatAgent._update_user_info` (src/services/chat_agent.py lines 371-407)

The extracted-info argument is a JSON object.  Its scalar entries are
strings (the extraction schema fixes them as such); the `preferences`
entry may be any JSON value but is merged only when it is an object; any
other key is folded into preferences when truthy.  JSON values are
embedded as `PyVal`, JSON objects as insertion-ordered association
lists with unique keys, and the dict is partitioned into the six fixed
keys and the rest, which is exactly how the Python loop treats it. -/

/-- A JSON value as the merge sees it: a string or a nested object. -/
inductive PyVal where
  | str : String → PyVal
  | dict : List (String × PyVal) → PyVal

/-- Python truthiness for the values the merge tests. -/
def pyTruthy : PyVal → Bool
  | .str s => !(s == "")
  | .dict d => !d.isEmpty

/-- Python `str(v).strip()`. -/
def strTrim (s : String) : String := (trimChars s.toList).asString

/-- Python `s.lower()`. -/
def strLower (s : String) : String := (lowerStr s.toList).asString

/-- Python `d[k] = v` on an insertion-ordered dict: overwrite in place
if the key exists, else append. -/
def dictSet : List (String × PyVal) → String → PyVal → List (String × PyVal)
  | [], k, v => [(k, v)]
  | kv :: t, k, v => if kv.1 == k then (k, v) :: t else kv :: dictSet t k v

/-- Python `d[k]` lookup (`None` when absent). -/
def dictGet (k : String) : List (String × PyVal) → Option PyVal
  | [] => none
  | kv :: t => if kv.1 == k then some kv.2 else dictGet k t

/-- Python `d.update(kvs)`: `d[k] = v` for each entry in order. -/
def dictUpdate (d kvs : List (String × PyVal)) : List (String × PyVal) :=
  kvs.foldl (fun acc kv => dictSet acc kv.1 kv.2) d

/-- `if "preferences" in info and isinstance(info["preferences"], dict):
user.preferences.update(info["preferences"])`. -/
def applyPrefs (pr : Option PyVal) (d : List (String × PyVal)) : List (String × PyVal) :=
  match pr with
  | some (.dict kvs) => dictUpdate d kvs
  | _ => d

/-- The trailing loop: every remaining key with a truthy value is set
in preferences. -/
def applyOthers (os : List (String × PyVal)) (d : List (String × PyVal)) :
    List (String × PyVal) :=
  os.foldl (fun p kv => if pyTruthy kv.2 then dictSet p kv.1 kv.2 else p) d

/-- The user row fields `_update_user_info` reads and writes (the
`updated_at` timestamp is wall-clock bookkeeping and not modelled).
`preferences` is a nullable JSON column. -/
structure UserRec where
  name : Option String
  email : Option String
  phone : Option String
  company : Option String
  role : Option String
  preferences : Option (List (String × PyVal))

/-- The extracted-info dict, partitioned by the six keys the code
handles specially; `others` holds every remaining key, in insertion
order. -/
structure ExtractedInfo where
  name : Option String
  email : Option String
  phone : Option String
  company : Option String
  role : Option String
  preferences : Option PyVal
  others : List (String × PyVal)

/-- The empty extracted dict. -/
def emptyInfo : ExtractedInfo := ⟨none, none, none, none, none, none, []⟩

/-- `ChatAgent._update_user_info`, for a user found in the database:
each scalar field is overwritten when present and truthy (trimmed, and
lowercased for email); a falsy (null or empty) preferences column is
replaced by the empty dict; the extracted preferences object is merged
entry by entry; remaining truthy keys are folded in. -/
def updateUserInfo (u : UserRec) (info : ExtractedInfo) : UserRec :=
  let u1 := match info.name with
    | some v => if v = "" then u else { u with name := some (strTrim v) }
    | none => u
  let u2 := match info.email with
    | some v => if v = "" then u1 else { u1 with email := some (strLower (strTrim v)) }
    | none => u1
  let u3 := match info.phone with
    | some v => if v = "" then u2 else { u2 with phone := some (strTrim v) }
    | none => u2
  let u4 := match info.company with
    | some v => if v = "" then u3 else { u3 with company := some (strTrim v) }
    | none => u3
  let u5 := match info.role with
    | some v => if v = "" then u4 else { u4 with role := some (strTrim v) }
    | none => u4
  let prefs0 := u5.preferences.getD []
  { u5 with preferences := some (applyOthers info.others (applyPrefs info.preferences prefs0)) }

/- ## Dictionary lemmas for the preferences merge -/

theorem dictGet_dictSet_self (d : List (String × PyVal)) (k : String) (v : PyVal) :
    dictGet k (dictSet d k v) = some v := by
  induction d with
  | nil => simp [dictSet, dictGet]
  | cons a t ih =>
    by_cases h : a.1 == k
    · simp [dictSet, dictGet, h]
    · simp only [dictSet, dictGet, h, if_neg, Bool.false_eq_true, if_false]
      simpa [dictGet, h] using ih

theorem dictGet_dictSet_other (d : List (String × PyVal)) (k k' : String) (v : PyVal)
    (h : k ≠ k') : dictGet k (dictSet d k' v) = dictGet k d := by
  induction d with
  | nil => simp [dictSet, dictGet, Ne.symm h]
  | cons a t ih =>
    obtain ⟨a1, a2⟩ := a
    by_cases ha : a1 = k'
    · subst ha
      simp [dictSet, dictGet, Ne.symm h]
    · simp only [dictSet, dictGet]
      rw [if_neg (by simpa using ha)]
      by_cases hak : a1 = k
      · subst hak; simp [dictGet]
      · simp only [dictGet]
        rw [if_neg (by simpa using hak), if_neg (by simpa using hak)]
        exact ih

theorem dictGet_dictUpdate_not_mem (kvs : List (String × PyVal)) (k : String) :
    ∀ d, k ∉ kvs.map Prod.fst → dictGet k (dictUpdate d kvs) = dictGet k d := by
  induction kvs with
  | nil => intro d _; rfl
  | cons a t ih =>
    intro d h
    simp only [List.map_cons, List.mem_cons, not_or] at h
    show dictGet k (dictUpdate (dictSet d a.1 a.2) t) = dictGet k d
    rw [ih _ h.2, dictGet_dictSet_other _ _ _ _ h.1]

/-- One step of the trailing fold. -/
theorem applyOthers_cons (a : String × PyVal) (t d : List (String × PyVal)) :
    applyOthers (a :: t) d =
      applyOthers t (if pyTruthy a.2 then dictSet d a.1 a.2 else d) := rfl

theorem dictGet_applyOthers_not_mem (os : List (String × PyVal)) (k : String) :
    ∀ d, k ∉ (os.filter (fun kv => pyTruthy kv.2)).map Prod.fst →
      dictGet k (applyOthers os d) = dictGet k d := by
  induction os with
  | nil => intro d _; rfl
  | cons a t ih =>
    intro d h
    rw [List.filter_cons] at h
    rw [applyOthers_cons]
    by_cases ht : pyTruthy a.2
    · rw [if_pos ht] at h
      simp only [List.map_cons, List.mem_cons, not_or] at h
      rw [if_pos ht, ih _ h.2, dictGet_dictSet_other _ _ _ _ h.1]
    · rw [if_neg ht] at h
      rw [if_neg ht]
      exact ih _ h

theorem dictGet_dictSet_isSome (d : List (String × PyVal)) (k k' : String) (v : PyVal)
    (h : (dictGet k d).isSome = true) : (dictGet k (dictSet d k' v)).isSome = true := by
  by_cases hk : k = k'
  · subst hk; rw [dictGet_dictSet_self]; rfl
  · rw [dictGet_dictSet_other _ _ _ _ hk]; exact h

theorem applyOthers_preserves_isSome (os : List (String × PyVal)) (k : String) :
    ∀ d, (dictGet k d).isSome = true → (dictGet k (applyOthers os d)).isSome = true := by
  induction os with
  | nil => intro d h; exact h
  | cons a t ih =>
    intro d h
    rw [applyOthers_cons]
    by_cases ht : pyTruthy a.2
    · rw [if_pos ht]
      exact ih _ (dictGet_dictSet_isSome _ _ _ _ h)
    · rw [if_neg ht]
      exact ih _ h

theorem applyOthers_mem_isSome (os : List (String × PyVal)) (kv : String × PyVal)
    (ht : pyTruthy kv.2 = true) :
    ∀ d, kv ∈ os → (dictGet kv.1 (applyOthers os d)).isSome = true := by
  induction os with
  | nil => intro d hm; cases hm
  | cons a t ih =>
    intro d hm
    rw [applyOthers_cons]
    rcases List.mem_cons.mp hm with h1 | h2
    · subst h1
      rw [if_pos ht]
      refine applyOthers_preserves_isSome _ _ _ ?_
      rw [dictGet_dictSet_self]; rfl
    · exact ih _ h2

/-- The keys of the extracted `preferences` entry when it is an object
(`isinstance(..., dict)`), else nothing. -/
def prefsDictKeys (pr : Option PyVal) : List String :=
  match pr with
  | some (.dict kvs) => kvs.map Prod.fst
  | _ => []

/-- The preference keys an extraction can touch: those of its
`preferences` object plus every remaining truthy key. -/
def prefsTouchedKeys (info : ExtractedInfo) : List String :=
  prefsDictKeys info.preferences ++
    (info.others.filter (fun kv => pyTruthy kv.2)).map Prod.fst

theorem dictGet_applyPrefs_not_mem (pr : Option PyVal) (k : String)
    (d : List (String × PyVal)) (h : k ∉ prefsDictKeys pr) :
    dictGet k (applyPrefs pr d) = dictGet k d := by
  match pr with
  | none => rfl
  | some (.str s) => rfl
  | some (.dict kvs) => exact dictGet_dictUpdate_not_mem kvs k d h

/-- Normal form of the merge: each field of the result, in terms of the
inputs. -/
theorem updateUserInfo_eq (u : UserRec) (info : ExtractedInfo) :
    updateUserInfo u info =
      { name := match info.name with
          | some v => if v = "" then u.name else some (strTrim v)
          | none => u.name,
        email := match info.email with
          | some v => if v = "" then u.email else some (strLower (strTrim v))
          | none => u.email,
        phone := match info.phone with
          | some v => if v = "" then u.phone else some (strTrim v)
          | none => u.phone,
        company := match info.company with
          | some v => if v = "" then u.company else some (strTrim v)
          | none => u.company,
        role := match info.role with
          | some v => if v = "" then u.role else some (strTrim v)
          | none => u.role,
        preferences := some (applyOthers info.others
          (applyPrefs info.preferences (u.preferences.getD []))) } := by
  rcases info with ⟨n, e, p, c, r, pr, os⟩
  cases n <;> cases e <;> cases p <;> cases c <;> cases r <;>
    dsimp only [updateUserInfo] <;> split_ifs <;> rfl

/- ## Claim C4: the profile merge policy -/

/-- C4 counterexample: the claim says merging the empty extracted map
leaves every field of the user unchanged, but `_update_user_info`
unconditionally runs `if not user.preferences: user.preferences =`
empty-dict before merging: for a user whose nullable `preferences`
column is NULL, merging the empty map replaces NULL with the empty
dict, an observable change to the row. -/
theorem updateUserInfo_empty_not_identity :
    updateUserInfo ⟨some "Alice", none, none, none, none, none⟩ emptyInfo ≠
      ⟨some "Alice", none, none, none, none, none⟩ := by
  intro h
  have hp : (updateUserInfo ⟨some "Alice", none, none, none, none, none⟩ emptyInfo).preferences
      = some [] := rfl
  rw [h] at hp
  exact Option.noConfusion hp

/-- C4 (amended): each scalar field among name, email, phone, company,
role is overwritten exactly when the extracted value is present and
non-empty, stored trimmed (and lowercased for email); merging the empty
map leaves the five scalar fields unchanged and only normalizes a null
or empty preferences column to the empty dict; preferences are updated
key by key rather than replaced — the result is always a dict, an entry
whose key is touched by neither the extracted preferences object nor a
truthy extra key keeps its old value, and every extracted key outside
the six specially handled ones with a truthy value ends up present in
preferences. -/
theorem updateUserInfo_merge_policy (u : UserRec) (info : ExtractedInfo) :
    ((updateUserInfo u info).name = match info.name with
      | some v => if v = "" then u.name else some (strTrim v)
      | none => u.name) ∧
    ((updateUserInfo u info).email = match info.email with
      | some v => if v = "" then u.email else some (strLower (strTrim v))
      | none => u.email) ∧
    ((updateUserInfo u info).phone = match info.phone with
      | some v => if v = "" then u.phone else some (strTrim v)
      | none => u.phone) ∧
    ((updateUserInfo u info).company = match info.company with
      | some v => if v = "" then u.company else some (strTrim v)
      | none => u.company) ∧
    ((updateUserInfo u info).role = match info.role with
      | some v => if v = "" then u.role else some (strTrim v)
      | none => u.role) ∧
    (updateUserInfo u emptyInfo =
      { u with preferences := some (u.preferences.getD []) }) ∧
    ((updateUserInfo u info).preferences =
      some (applyOthers info.others
        (applyPrefs info.preferences (u.preferences.getD [])))) ∧
    (∀ k : String, k ∉ prefsTouchedKeys info →
      dictGet k ((updateUserInfo u info).preferences.getD []) =
        dictGet k (u.preferences.getD [])) ∧
    (∀ kv ∈ info.others, pyTruthy kv.2 = true →
      (dictGet kv.1 ((updateUserInfo u info).preferences.getD [])).isSome = true) := by
  refine ⟨?_, ?_, ?_, ?_, ?_, ?_, ?_, ?_, ?_⟩
  · rw [updateUserInfo_eq]
  · rw [updateUserInfo_eq]
  · rw [updateUserInfo_eq]
  · rw [updateUserInfo_eq]
  · rw [updateUserInfo_eq]
  · rw [updateUserInfo_eq]; rfl
  · rw [updateUserInfo_eq]
  · intro k hk
    rw [updateUserInfo_eq]
    simp only [Option.getD_some]
    rw [prefsTouchedKeys, List.mem_append, not_or] at hk
    rw [dictGet_applyOthers_not_mem _ _ _ hk.2, dictGet_applyPrefs_not_mem _ _ _ hk.1]
  · intro kv hm ht
    rw [updateUserInfo_eq]
    simp only [Option.getD_some]
    exact applyOthers_mem_isSome info.others kv ht _ hm

/-- Witness for C4 (amended): a user with one stored preference entry
under key `a`; the extraction carries one truthy extra key `b`.  The
untouched entry `a` keeps its value and the truthy key `b` is folded in. -/
theorem updateUserInfo_merge_policy_witness :
    (dictGet "a" ((updateUserInfo
        ⟨none, none, none, none, none, some [("a", PyVal.str "x")]⟩
        ⟨none, none, none, none, none, none, [("b", PyVal.str "y")]⟩).preferences.getD []) =
      dictGet "a" ((some [("a", PyVal.str "x")] :
        Option (List (String × PyVal))).getD [])) ∧
    (dictGet "b" ((updateUserInfo
        ⟨none, none, none, none, none, some [("a", PyVal.str "x")]⟩
        ⟨none, none, none, none, none, none, [("b", PyVal.str "y")]⟩).preferences.getD
          [])).isSome = true := by
  constructor
  · exact (updateUserInfo_merge_policy
      ⟨none, none, none, none, none, some [("a", PyVal.str "x")]⟩
      ⟨none, none, none, none, none, none, [("b", PyVal.str "y")]⟩).2.2.2.2.2.2.2.1 "a"
      (by simp [prefsTouchedKeys, prefsDictKeys, pyTruthy])
  · exact (updateUserInfo_merge_policy
      ⟨none, none, none, none, none, some [("a", PyVal.str "x")]⟩
      ⟨none, none, none, none, none, none, [("b", PyVal.str "y")]⟩).2.2.2.2.2.2.2.2
      ("b", PyVal.str "y") (by simp) rfl

/- ## The vector index and `RAGService.retrieve_documents`
   (src/services/rag_service.py lines 189-217)

The ChromaDB collection stores (id, metadata, chunk text) triples; a
query embeds the query text and returns the `n_results` nearest stored
chunks ordered by ascending cosine distance, ties in insertion order
(the store's documented nearest-neighbor contract — the store itself is
a third-party dependency, so its query is modelled by sorting the
collection by the distance the embedding assigns and taking a prefix).
`retrieve_documents` wraps the query in a `try` that turns any raised
error into an empty list, so the query outcome is passed to the
formatting step as an `Except`. -/

/-- Chunk metadata as `process_document` writes it (the `created_at`
wall-clock string and optional caller metadata carry no information the
claims consult and none of the repository's call sites override the
fixed keys). -/
structure ChunkMeta where
  filename : String
  content_type : String
  chunk_index : Nat
  total_chunks : Nat
deriving DecidableEq

/-- One stored chunk of the ChromaDB collection. -/
structure VChunk where
  id : String
  meta : ChunkMeta
  content : List Char
deriving DecidableEq

instance : DecidableRel (fun (a b : VChunk × ℚ) => a.2 ≤ b.2) :=
  fun a b => inferInstanceAs (Decidable (a.2 ≤ b.2))

/-- The store's `collection.query(...)` for one query whose embedding
assigns distance `dist c` to stored chunk `c`: the `k` nearest chunks
with their distances, ascending. -/
def chromaQuery (col : List VChunk) (dist : VChunk → ℚ) (k : Nat) :
    List (VChunk × ℚ) :=
  ((col.map (fun c => (c, dist c))).insertionSort (fun a b => a.2 ≤ b.2)).take k

/-- One formatted retrieval result. -/
structure RetrievedDoc where
  content : List Char
  meta : ChunkMeta
  similarity_score : ℚ
deriving DecidableEq

/-- `RAGService.retrieve_documents`: on a raised error the `except`
branch returns `[]`; otherwise each returned chunk is formatted with
`similarity_score = 1 - distance`. -/
def retrieveDocuments (queryResult : Except String (List (VChunk × ℚ))) :
    List RetrievedDoc :=
  match queryResult with
  | .error _ => []
  | .ok rs => rs.map (fun p => ⟨p.1.content, p.1.meta, 1 - p.2⟩)

/-- C5: retrieval returns at most `k` results — exactly `min k n` on an
index of `n` chunks, so fewer than `k` when the index is smaller and an
empty sequence (not an error) on an empty index; every result carries
`similarity_score = 1 - distance` of some stored chunk; and the
similarity scores are monotonically non-increasing from first to last. -/
theorem retrieveDocuments_topk (col : List VChunk) (dist : VChunk → ℚ) (k : Nat) :
    (retrieveDocuments (Except.ok (chromaQuery col dist k))).length = min k col.length ∧
    retrieveDocuments (Except.ok (chromaQuery ([] : List VChunk) dist k)) = [] ∧
    (retrieveDocuments (Except.ok (chromaQuery col dist k))).Pairwise
      (fun a b => b.similarity_score ≤ a.similarity_score) ∧
    (retrieveDocuments (Except.ok (chromaQuery col dist k))).Forall
      (fun r => ∃ c, c ∈ col ∧ r.content = c.content ∧ r.meta = c.meta ∧
        r.similarity_score = 1 - dist c) := by
  haveI htot : IsTotal (VChunk × ℚ) (fun a b => a.2 ≤ b.2) := ⟨fun a b => le_total a.2 b.2⟩
  haveI htr : IsTrans (VChunk × ℚ) (fun a b => a.2 ≤ b.2) :=
    ⟨fun _ _ _ hab hbc => le_trans hab hbc⟩
  refine ⟨?_, ?_, ?_, ?_⟩
  · simp [retrieveDocuments, chromaQuery]
  · simp [retrieveDocuments, chromaQuery]
  · have hsorted := List.sorted_insertionSort (fun (a b : VChunk × ℚ) => a.2 ≤ b.2)
      (col.map (fun c => (c, dist c)))
    have htake : (chromaQuery col dist k).Pairwise (fun (a b : VChunk × ℚ) => a.2 ≤ b.2) :=
      List.Pairwise.sublist (List.take_sublist _ _) hsorted
    show ((chromaQuery col dist k).map
      (fun p => (⟨p.1.content, p.1.meta, 1 - p.2⟩ : RetrievedDoc))).Pairwise _
    rw [List.pairwise_map]
    exact htake.imp fun h => sub_le_sub_left h 1
  · rw [List.forall_iff_forall_mem]
    intro r hr
    obtain ⟨p, hp, rfl⟩ := List.mem_map.mp hr
    have hp2 : p ∈ (col.map (fun c => (c, dist c))).insertionSort
        (fun (a b : VChunk × ℚ) => a.2 ≤ b.2) := List.mem_of_mem_take hp
    rw [List.mem_insertionSort] at hp2
    obtain ⟨c, hc, rfl⟩ := List.mem_map.mp hp2
    exact ⟨c, hc, rfl, rfl, rfl⟩

/-- C10: any error raised inside `retrieve_documents` (index
unavailable, embedding failure, malformed result) is caught and an
empty list is returned; the error outcome is indistinguishable from a
genuinely empty query result. -/
theorem retrieveDocuments_error_empty :
    ∀ e : String, retrieveDocuments (Except.error e) = [] ∧
      retrieveDocuments (Except.error e) = retrieveDocuments (Except.ok []) :=
  fun _ => ⟨rfl, rfl⟩

/- ## `ChatAgent._generate_response` (src/services/chat_agent.py lines
   409-468)

The method formats the retrieved context into a source list, calls the
generative provider, and returns `(text, sources)`.  The provider call
is the fallible step; its outcome enters the embedding as an `Except`.
On a raised error the `except` branch returns the fixed apology and an
empty source list. -/

/-- One entry of the `sources` list. -/
structure SourceEntry where
  source : String
  content : List Char
  similarity_score : ℚ
deriving DecidableEq

/-- `doc['content'][:200] + "..." if len(doc['content']) > 200 else
doc['content']`. -/
def truncateContent (l : List Char) : List Char :=
  if 200 < l.length then l.take 200 ++ "...".toList else l

/-- The fixed apologetic fallback of `_generate_response`. -/
def fallbackMessage : String :=
  "I apologize, but I\x27m having trouble processing your request right now. Please try again later."

/-- `ChatAgent._generate_response`: sources are built from the RAG
context (`doc['metadata'].get('filename', 'Unknown')` never misses the
default because ingestion always writes the key); a provider error is
caught and replaced by the fallback with no sources. -/
def generateResponse (ragContext : List RetrievedDoc) (llm : Except String String) :
    String × List SourceEntry :=
  let sources := ragContext.map (fun d =>
    (⟨d.meta.filename, truncateContent d.content, d.similarity_score⟩ : SourceEntry))
  match llm with
  | .ok r => (r, sources)
  | .error _ => (fallbackMessage, [])

/-- C8: whenever the generative-provider call raises, the error is not
propagated: `_generate_response` returns the fixed apologetic fallback
and an empty source list, for every retrieved context and every error. -/
theorem generateResponse_fallback :
    ∀ (ragContext : List RetrievedDoc) (e : String),
      generateResponse ragContext (Except.error e) = (fallbackMessage, []) :=
  fun _ _ => rfl

/- ## Ingestion state: `RAGService.process_document` and
   `RAGService.remove_document_by_filename`
   (src/services/rag_service.py lines 52-159)

The relational `documents` table and the ChromaDB collection form the
state.  `remove_document_by_filename` looks up the first active row
with the filename; if found it deactivates that row, deletes every
collection chunk whose metadata filename matches (chunk ids are unique,
so deleting the collected ids is the same as filtering on the
metadata), commits, and returns True; otherwise it changes nothing and
returns False.  `process_document` runs the removal, splits the
content, builds the chunk batch, adds it to the collection (the
fallible embed-and-insert step, modelled by the `addOk` flag), and only
then inserts and commits the new Document row; any raised error is
logged and re-raised. -/

/-- A row of the `documents` table (timestamps and the derived
`file_size` are bookkeeping the claims do not consult). -/
structure DocRow where
  id : String
  filename : String
  content_type : String
  content : List Char
  is_active : Bool
deriving DecidableEq

/-- The two stores ingestion touches. -/
structure RagState where
  docs : List DocRow
  coll : List VChunk
deriving DecidableEq

/-- Deactivate the first active row carrying the filename (the code
fetches `.first()` and flips only that row). -/
def deactivateFirst : List DocRow → String → List DocRow
  | [], _ => []
  | r :: rs, f =>
    if r.filename == f && r.is_active then { r with is_active := false } :: rs
    else r :: deactivateFirst rs f

/-- `RAGService.remove_document_by_filename` (success path: the store
operations do not themselves fail). -/
def removeDocumentByFilename (s : RagState) (f : String) : RagState × Bool :=
  if s.docs.any (fun r => r.filename == f && r.is_active) then
    ({ docs := deactivateFirst s.docs f,
       coll := s.coll.filter (fun c => !(c.meta.filename == f)) }, true)
  else (s, false)

/-- The chunk batch `process_document` builds from the split chunks:
ids `"{filename}_{ts}_chunk_{i}"`, metadata carrying the filename. -/
def mkChunks (f ctype : String) (ts : Nat) (total : Nat) :
    Nat → List (List Char) → List VChunk
  | _, [] => []
  | i, ch :: rest =>
    { id := f ++ "_" ++ toString ts ++ "_chunk_" ++ toString i,
      meta := { filename := f, content_type := ctype, chunk_index := i,
                total_chunks := total },
      content := ch } :: mkChunks f ctype ts total (i + 1) rest

/-- Outcome of one `process_document` call. -/
inductive IngestResult where
  | diverged : IngestResult
  | raised : RagState → IngestResult
  | ok : RagState → String → IngestResult
deriving DecidableEq

/-- `RAGService.process_document`: remove any existing document, split,
add the chunk batch to the collection (raising when `addOk` is false,
which models an embedding or index-insert failure), then insert and
commit the new active Document row and return its id.  `diverged` means
`_split_text` did not terminate within the fuel. -/
def processDocument (fuel cs ov : Nat) (addOk : Bool) (s : RagState)
    (content : List Char) (f ctype rowId : String) (ts : Nat) : IngestResult :=
  let s1 := (removeDocumentByFilename s f).1
  match splitText fuel cs ov content with
  | none => .diverged
  | some chunks =>
    let newChunks := mkChunks f ctype ts chunks.length 0 chunks
    if addOk then
      .ok { docs := s1.docs ++ [{ id := rowId, filename := f, content_type := ctype,
                                  content := content, is_active := true }],
            coll := s1.coll ++ newChunks } rowId
    else .raised s1

/-- Number of active rows for a filename. -/
def activeDocCount (docs : List DocRow) (f : String) : Nat :=
  (docs.filter (fun r => r.filename == f && r.is_active)).length

/-- The collection's chunks attributable to a filename. -/
def chunksFor (coll : List VChunk) (f : String) : List VChunk :=
  coll.filter (fun c => c.meta.filename == f)

theorem activeDocCount_deactivateFirst (docs : List DocRow) (f : String)
    (h : activeDocCount docs f ≤ 1) : activeDocCount (deactivateFirst docs f) f = 0 := by
  induction docs with
  | nil => rfl
  | cons r rs ih =>
    by_cases hr : (r.filename == f && r.is_active) = true
    · rw [deactivateFirst, if_pos hr]
      have hcons : activeDocCount (r :: rs) f = activeDocCount rs f + 1 := by
        simp [activeDocCount, List.filter_cons, hr]
      have hrs : activeDocCount rs f = 0 := by omega
      simp [activeDocCount, List.filter_cons] at hrs ⊢
      simpa using hrs
    · rw [deactivateFirst, if_neg hr]
      have hcons : activeDocCount (r :: rs) f = activeDocCount rs f := by
        simp [activeDocCount, List.filter_cons, hr]
      have h' : activeDocCount rs f ≤ 1 := by omega
      have : activeDocCount (r :: deactivateFirst rs f) f
          = activeDocCount (deactivateFirst rs f) f := by
        simp [activeDocCount, List.filter_cons, hr]
      rw [this]
      exact ih h'

theorem removeDocument_active_zero (s : RagState) (f : String)
    (h : activeDocCount s.docs f ≤ 1) :
    activeDocCount ((removeDocumentByFilename s f).1).docs f = 0 := by
  rw [removeDocumentByFilename]
  by_cases hany : s.docs.any (fun r => r.filename == f && r.is_active)
  · rw [if_pos hany]
    exact activeDocCount_deactivateFirst _ _ h
  · rw [if_neg hany]
    simp only [activeDocCount]
    have hnil : s.docs.filter (fun r => r.filename == f && r.is_active) = [] := by
      rw [List.filter_eq_nil_iff]
      intro a ha hpa
      exact hany (List.any_eq_true.mpr ⟨a, ha, hpa⟩)
    rw [hnil]
    rfl

theorem removeDocument_chunks_empty (s : RagState) (f : String)
    (h : 1 ≤ activeDocCount s.docs f ∨ chunksFor s.coll f = []) :
    chunksFor ((removeDocumentByFilename s f).1).coll f = [] := by
  rw [removeDocumentByFilename]
  by_cases hany : s.docs.any (fun r => r.filename == f && r.is_active)
  · rw [if_pos hany]
    simp only [chunksFor]
    rw [List.filter_filter, List.filter_eq_nil_iff]
    intro a _
    cases hfa : (a.meta.filename == f) <;> simp [hfa]
  · rw [if_neg hany]
    rcases h with h1 | h2
    · exfalso
      have hnil : s.docs.filter (fun r => r.filename == f && r.is_active) = [] := by
        rw [List.filter_eq_nil_iff]
        intro a ha hpa
        exact hany (List.any_eq_true.mpr ⟨a, ha, hpa⟩)
      rw [activeDocCount, hnil] at h1
      exact absurd h1 (by decide)
    · exact h2

theorem chunksFor_mkChunks (f ctype : String) (ts total : Nat) :
    ∀ (l : List (List Char)) (i : Nat),
      chunksFor (mkChunks f ctype ts total i l) f = mkChunks f ctype ts total i l := by
  intro l
  induction l with
  | nil => intro i; rfl
  | cons ch rest ih =>
    intro i
    have hrest := ih (i + 1)
    simp only [chunksFor] at hrest
    simp only [mkChunks, chunksFor, List.filter_cons]
    simp [hrest]

/-- Normal form of a successful ingestion. -/
theorem processDocument_ok_state (fuel cs ov : Nat) (s : RagState) (content : List Char)
    (f ctype rowId : String) (ts : Nat) (chunks : List (List Char)) (s' : RagState)
    (d : String) (hsplit : splitText fuel cs ov content = some chunks)
    (hok : processDocument fuel cs ov true s content f ctype rowId ts = .ok s' d) :
    s' = { docs := (removeDocumentByFilename s f).1.docs ++
                     [{ id := rowId, filename := f, content_type := ctype,
                        content := content, is_active := true }],
           coll := (removeDocumentByFilename s f).1.coll ++
                     mkChunks f ctype ts chunks.length 0 chunks } := by
  rw [processDocument, hsplit] at hok
  simp only [if_true, IngestResult.ok.injEq] at hok
  exact hok.1.symm

/-- One successful ingestion from a state with at most one active row:
afterwards exactly one active row exists, and if an active row existed
before (or no stale chunks did), the filename's chunks are exactly the
new batch. -/
theorem processDocument_ok_step (fuel cs ov : Nat) (s : RagState) (content : List Char)
    (f ctype rowId : String) (ts : Nat) (chunks : List (List Char)) (s' : RagState)
    (d : String) (hsplit : splitText fuel cs ov content = some chunks)
    (hok : processDocument fuel cs ov true s content f ctype rowId ts = .ok s' d)
    (hcount : activeDocCount s.docs f ≤ 1) :
    activeDocCount s'.docs f = 1 ∧
      (1 ≤ activeDocCount s.docs f ∨ chunksFor s.coll f = [] →
        chunksFor s'.coll f = mkChunks f ctype ts chunks.length 0 chunks) := by
  have hstate := processDocument_ok_state fuel cs ov s content f ctype rowId ts chunks s' d
    hsplit hok
  subst hstate
  constructor
  · simp only [activeDocCount, List.filter_append, List.length_append]
    have h0 := removeDocument_active_zero s f hcount
    rw [activeDocCount] at h0
    rw [h0]
    simp
  · intro hpre
    simp only [chunksFor, List.filter_append]
    have h1 := removeDocument_chunks_empty s f hpre
    rw [chunksFor] at h1
    rw [h1]
    have h2 := chunksFor_mkChunks f ctype ts chunks.length chunks 0
    rw [chunksFor] at h2
    rw [h2]
    rfl

/-- C1: replace-on-reingest.  Ingesting a filename into a state holding
an active Document row for it first deactivates that row and purges the
filename's chunks, then inserts the new batch and a fresh active row:
afterwards exactly one active row exists and the filename's chunks are
exactly the new ingestion's.  Consequently, ingesting the same filename
twice (from a state with at most one active row for it) leaves exactly
one active Document row and exactly the second ingestion's chunks — not
a mix or a sum of both. -/
theorem processDocument_replace_on_reingest (fuel cs ov : Nat) (s : RagState)
    (c₁ c₂ : List Char) (f ctype id₁ id₂ : String) (ts₁ ts₂ : Nat) :
    (∀ s' d chunks, activeDocCount s.docs f = 1 →
      splitText fuel cs ov c₁ = some chunks →
      processDocument fuel cs ov true s c₁ f ctype id₁ ts₁ = .ok s' d →
      activeDocCount s'.docs f = 1 ∧
        chunksFor s'.coll f = mkChunks f ctype ts₁ chunks.length 0 chunks) ∧
    (∀ s₁ s₂ d₁ d₂ chunks₁ chunks₂, activeDocCount s.docs f ≤ 1 →
      splitText fuel cs ov c₁ = some chunks₁ →
      processDocument fuel cs ov true s c₁ f ctype id₁ ts₁ = .ok s₁ d₁ →
      splitText fuel cs ov c₂ = some chunks₂ →
      processDocument fuel cs ov true s₁ c₂ f ctype id₂ ts₂ = .ok s₂ d₂ →
      activeDocCount s₂.docs f = 1 ∧
        chunksFor s₂.coll f = mkChunks f ctype ts₂ chunks₂.length 0 chunks₂) := by
  constructor
  · intro s' d chunks hcount hsplit hok
    have hstep := processDocument_ok_step fuel cs ov s c₁ f ctype id₁ ts₁ chunks s' d
      hsplit hok (by omega)
    exact ⟨hstep.1, hstep.2 (Or.inl (by omega))⟩
  · intro s₁ s₂ d₁ d₂ chunks₁ chunks₂ hcount hsplit₁ hok₁ hsplit₂ hok₂
    have hstep₁ := processDocument_ok_step fuel cs ov s c₁ f ctype id₁ ts₁ chunks₁ s₁ d₁
      hsplit₁ hok₁ hcount
    have hstep₂ := processDocument_ok_step fuel cs ov s₁ c₂ f ctype id₂ ts₂ chunks₂ s₂ d₂
      hsplit₂ hok₂ (by omega)
    exact ⟨hstep₂.1, hstep₂.2 (Or.inl (by omega))⟩

/-- Witness for C1: from an empty state, ingesting `a.txt` twice (five-
and six-character contents, chunk size 10) ends with the first row
deactivated, one new active row, and exactly the second batch's chunk. -/
theorem processDocument_replace_on_reingest_witness :
    (activeDocCount
      [⟨"r1", "a.txt", "text/plain", "hello".toList, false⟩,
       ⟨"r2", "a.txt", "text/plain", "world!".toList, true⟩] "a.txt" = 1 ∧
     chunksFor
      [⟨"a.txt_2_chunk_0", ⟨"a.txt", "text/plain", 0, 1⟩, "world!".toList⟩] "a.txt" =
       mkChunks "a.txt" "text/plain" 2 1 0 ["world!".toList]) := by
  exact (processDocument_replace_on_reingest 100 10 2 ⟨[], []⟩ "hello".toList
      "world!".toList "a.txt" "text/plain" "r1" "r2" 1 2).2
    ⟨[⟨"r1", "a.txt", "text/plain", "hello".toList, true⟩],
     [⟨"a.txt_1_chunk_0", ⟨"a.txt", "text/plain", 0, 1⟩, "hello".toList⟩]⟩
    ⟨[⟨"r1", "a.txt", "text/plain", "hello".toList, false⟩,
      ⟨"r2", "a.txt", "text/plain", "world!".toList, true⟩],
     [⟨"a.txt_2_chunk_0", ⟨"a.txt", "text/plain", 0, 1⟩, "world!".toList⟩]⟩
    "r1" "r2" ["hello".toList] ["world!".toList]
    (by decide) (by decide) (by decide) (by decide) (by decide)

/- ## Claim C9: failed embedding or index insert during ingestion -/

theorem deactivateFirst_map_id (docs : List DocRow) (f : String) :
    (deactivateFirst docs f).map DocRow.id = docs.map DocRow.id := by
  induction docs with
  | nil => rfl
  | cons r rs ih =>
    by_cases hr : (r.filename == f && r.is_active) = true
    · rw [deactivateFirst, if_pos hr]
      rfl
    · rw [deactivateFirst, if_neg hr]
      simpa using ih

/-- C9 counterexample: the claim's parenthetical says a failed insert
leaves the Document table unchanged.  But `remove_document_by_filename`
runs — and commits — before the insert: ingesting `a.txt` into a state
holding an active row for it with a failing index insert raises, yet
leaves that row deactivated, so the table differs from the pre-call
state. -/
theorem processDocument_failure_table_changed :
    processDocument 100 10 2 false
        ⟨[⟨"d1", "a.txt", "text/plain", "old".toList, true⟩], []⟩
        "hi".toList "a.txt" "text/plain" "d2" 7 =
      .raised ⟨[⟨"d1", "a.txt", "text/plain", "old".toList, false⟩], []⟩ ∧
    (⟨[⟨"d1", "a.txt", "text/plain", "old".toList, false⟩], []⟩ : RagState) ≠
      ⟨[⟨"d1", "a.txt", "text/plain", "old".toList, true⟩], []⟩ := by
  exact ⟨by decide, by decide⟩

/-- C9 (amended): when the embed-and-insert step fails, the error
propagates to the caller and no new Document row is committed — the row
ids of the table are exactly those present before the call.  The table
is not unchanged in general, though: the removal step has already
deactivated (and committed) a prior active row for the filename. -/
theorem processDocument_failure_no_new_row (fuel cs ov : Nat) (s : RagState)
    (content : List Char) (f ctype rowId : String) (ts : Nat)
    (chunks : List (List Char)) (hsplit : splitText fuel cs ov content = some chunks) :
    processDocument fuel cs ov false s content f ctype rowId ts =
      .raised (removeDocumentByFilename s f).1 ∧
    (removeDocumentByFilename s f).1.docs.map DocRow.id = s.docs.map DocRow.id := by
  constructor
  · rw [processDocument, hsplit]
    rfl
  · rw [removeDocumentByFilename]
    by_cases hany : s.docs.any (fun r => r.filename == f && r.is_active)
    · rw [if_pos hany]
      exact deactivateFirst_map_id _ _
    · rw [if_neg hany]

/-- Witness for C9 (amended): an insert failure over a one-row table. -/
theorem processDocument_failure_no_new_row_witness :
    processDocument 100 10 2 false
        ⟨[⟨"d1", "a.txt", "text/plain", "old".toList, true⟩], []⟩
        "hi".toList "a.txt" "text/plain" "d2" 7 =
      .raised (removeDocumentByFilename
        ⟨[⟨"d1", "a.txt", "text/plain", "old".toList, true⟩], []⟩ "a.txt").1 ∧
    ((removeDocumentByFilename
        ⟨[⟨"d1", "a.txt", "text/plain", "old".toList, true⟩], []⟩ "a.txt").1).docs.map
          DocRow.id =
      (RagState.docs ⟨[⟨"d1", "a.txt", "text/plain", "old".toList, true⟩], []⟩).map
        DocRow.id :=
  processDocument_failure_no_new_row 100 10 2
    ⟨[⟨"d1", "a.txt", "text/plain", "old".toList, true⟩], []⟩
    "hi".toList "a.txt" "text/plain" "d2" 7 ["hi".toList] rfl

/- ## `CRMService.create_user_session` and `get_user_sessions`
   (src/services/crm_service.py lines 619-664 and 753-771)

`create_user_session` checks the user exists (raising ValueError
otherwise), deactivates every active session row of that user, then
inserts a fresh active row whose expiry is `now + expires_in_hours` and
commits.  `get_user_sessions(active_only=True)` filters the user's rows
by `is_active` and `expires_at > now`; its `ORDER BY created_at DESC`
is a permutation of the rows and irrelevant to the cardinality facts
proved here, so it is omitted.  Time is modelled in hours. -/

/-- A `user_sessions` row. -/
structure SessionRow where
  user_id : String
  session_token : String
  expires_at : Nat
  is_active : Bool
deriving DecidableEq

/-- The users table (only existence is consulted) and the sessions
table. -/
structure CrmState where
  users : List String
  sessions : List SessionRow
deriving DecidableEq

/-- `CRMService.create_user_session`; `tok` stands for the generated
`secrets.token_urlsafe(32)`. -/
def createUserSession (s : CrmState) (uid : String) (now expiresInHours : Nat)
    (tok : String) : Except String (CrmState × SessionRow) :=
  if uid ∈ s.users then
    let deact := s.sessions.map (fun r =>
      if r.user_id == uid && r.is_active then { r with is_active := false } else r)
    let newRow : SessionRow :=
      { user_id := uid, session_token := tok, expires_at := now + expiresInHours,
        is_active := true }
    .ok ({ s with sessions := deact ++ [newRow] }, newRow)
  else .error ("User " ++ uid ++ " not found")

/-- `CRMService.get_user_sessions` (rows only; see the section comment
on ordering). -/
def getUserSessions (s : CrmState) (uid : String) (now : Nat) (activeOnly : Bool) :
    List SessionRow :=
  let q := s.sessions.filter (fun r => r.user_id == uid)
  if activeOnly then q.filter (fun r => r.is_active && now < r.expires_at) else q

/-- Number of active session rows of a user. -/
def activeSessionCount (s : CrmState) (uid : String) : Nat :=
  (s.sessions.filter (fun r => r.user_id == uid && r.is_active)).length

/-- One `create_user_session` call (the generated token and the clock
as data). -/
structure CreateCmd where
  uid : String
  now : Nat
  hours : Nat
  tok : String

/-- A sequence of `create_user_session` calls; a raising call leaves
the state unchanged (its transaction is rolled back). -/
def runCreates (s : CrmState) : List CreateCmd → CrmState
  | [] => s
  | c :: cs =>
    match createUserSession s c.uid c.now c.hours c.tok with
    | .ok (s', _) => runCreates s' cs
    | .error _ => runCreates s cs

theorem deactMap_filter_nil (sess : List SessionRow) (uid : String) :
    (sess.map (fun r =>
        if r.user_id == uid && r.is_active then { r with is_active := false } else r)).filter
      (fun r => r.user_id == uid && r.is_active) = [] := by
  rw [List.filter_eq_nil_iff]
  intro a ha
  obtain ⟨r, _, rfl⟩ := List.mem_map.mp ha
  by_cases hr : (r.user_id == uid && r.is_active) = true
  · rw [if_pos hr]
    simp
  · rw [if_neg hr]
    exact fun hc => hr hc

theorem deactMap_filter_other (sess : List SessionRow) (uid v : String) (hv : v ≠ uid) :
    ((sess.map (fun r =>
        if r.user_id == uid && r.is_active then { r with is_active := false } else r)).filter
      (fun r => r.user_id == v && r.is_active)).length =
    (sess.filter (fun r => r.user_id == v && r.is_active)).length := by
  induction sess with
  | nil => rfl
  | cons r rs ih =>
    have hpt : ((if r.user_id == uid && r.is_active then
          ({ r with is_active := false } : SessionRow) else r).user_id == v &&
        (if r.user_id == uid && r.is_active then
          ({ r with is_active := false } : SessionRow) else r).is_active) =
        (r.user_id == v && r.is_active) := by
      by_cases hr : (r.user_id == uid && r.is_active) = true
      · rw [if_pos hr]
        have huid : r.user_id = uid := by
          have := (Bool.and_eq_true _ _).mp hr
          exact beq_iff_eq.mp this.1
        have hvne : (r.user_id == v) = false := by
          rw [huid]
          exact beq_eq_false_iff_ne.mpr (fun h => hv h.symm)
        simp [hvne]
      · rw [if_neg hr]
    simp only [List.map_cons, List.filter_cons, hpt]
    by_cases hp : (r.user_id == v && r.is_active) = true
    · rw [if_pos hp, if_pos hp]
      simpa using ih
    · rw [if_neg hp, if_neg hp]
      exact ih

theorem createUserSession_counts (s : CrmState) (uid : String) (now h : Nat) (tok : String)
    (s' : CrmState) (row : SessionRow)
    (hok : createUserSession s uid now h tok = .ok (s', row)) :
    activeSessionCount s' uid = 1 ∧
      ∀ v, v ≠ uid → activeSessionCount s' v = activeSessionCount s v := by
  by_cases hmem : uid ∈ s.users
  · rw [createUserSession, if_pos hmem] at hok
    simp only [Except.ok.injEq, Prod.mk.injEq] at hok
    obtain ⟨hs', -⟩ := hok
    subst hs'
    constructor
    · simp only [activeSessionCount, List.filter_append, List.length_append]
      rw [deactMap_filter_nil]
      simp
    · intro v hv
      simp only [activeSessionCount, List.filter_append, List.length_append]
      rw [deactMap_filter_other s.sessions uid v hv]
      have hnew : (((⟨uid, tok, now + h, true⟩ : SessionRow).user_id == v) &&
          (⟨uid, tok, now + h, true⟩ : SessionRow).is_active) = false := by
        simp only [Bool.and_true]
        exact beq_eq_false_iff_ne.mpr (fun he => hv he.symm)
      simp [List.filter_cons, hnew]
  · rw [createUserSession, if_neg hmem] at hok
    exact absurd hok (by simp)

theorem runCreates_inv (cmds : List CreateCmd) :
    ∀ s : CrmState, (∀ u, activeSessionCount s u ≤ 1) →
      ∀ u, activeSessionCount (runCreates s cmds) u ≤ 1 := by
  induction cmds with
  | nil => intro s h u; exact h u
  | cons c cs ih =>
    intro s h u
    simp only [runCreates]
    cases hc : createUserSession s c.uid c.now c.hours c.tok with
    | ok pr =>
      obtain ⟨s', row⟩ := pr
      have hcounts := createUserSession_counts s c.uid c.now c.hours c.tok s' row hc
      refine ih s' ?_ u
      intro w
      by_cases hw : w = c.uid
      · subst hw
        rw [hcounts.1]
      · rw [hcounts.2 w hw]
        exact h w
    | error e => exact ih s h u

theorem getUserSessions_le_activeCount (s : CrmState) (uid : String) (now : Nat) :
    (getUserSessions s uid now true).length ≤ activeSessionCount s uid := by
  show ((s.sessions.filter (fun r => r.user_id == uid)).filter
      (fun r => r.is_active && now < r.expires_at)).length ≤
    (s.sessions.filter (fun r => r.user_id == uid && r.is_active)).length
  rw [List.filter_filter, ← List.countP_eq_length_filter, ← List.countP_eq_length_filter]
  apply List.countP_mono_left
  intro r _ hp
  simp only [Bool.and_eq_true, decide_eq_true_eq] at hp ⊢
  exact ⟨hp.2, hp.1.1⟩

/-- C7: `create_user_session` deactivates every previously active
session of the user before inserting the new active one, so a
successful call leaves that user with exactly one active row and every
other user's count untouched; hence any sequence of such calls
preserves "at most one active session per user", and querying a user's
active (unexpired) sessions never returns more than one row. -/
theorem createUserSession_single_active :
    (∀ (s : CrmState) (uid : String) (now h : Nat) (tok : String) (s' : CrmState)
        (row : SessionRow),
      createUserSession s uid now h tok = .ok (s', row) →
      activeSessionCount s' uid = 1 ∧
        ∀ v, v ≠ uid → activeSessionCount s' v = activeSessionCount s v) ∧
    (∀ (s : CrmState) (cmds : List CreateCmd),
      (∀ u, activeSessionCount s u ≤ 1) →
      ∀ u, activeSessionCount (runCreates s cmds) u ≤ 1) ∧
    (∀ (s : CrmState) (cmds : List CreateCmd),
      (∀ u, activeSessionCount s u ≤ 1) →
      ∀ (u : String) (now : Nat),
        (getUserSessions (runCreates s cmds) u now true).length ≤ 1) := by
  refine ⟨createUserSession_counts, fun s cmds => runCreates_inv cmds s, ?_⟩
  intro s cmds hinv u now
  exact Nat.le_trans (getUserSessions_le_activeCount _ _ _)
    (runCreates_inv cmds s hinv u)

/-- Witness for C7: a two-call sequence for the same user from an empty
session table. -/
theorem createUserSession_single_active_witness :
    (activeSessionCount
        ⟨["u"], [⟨"u", "t1", 24, false⟩, ⟨"u", "t2", 25, true⟩]⟩ "u" = 1) ∧
    (activeSessionCount
        (runCreates ⟨["u"], []⟩ [⟨"u", 0, 24, "t1"⟩, ⟨"u", 1, 24, "t2"⟩]) "u" ≤ 1) ∧
    ((getUserSessions
        (runCreates ⟨["u"], []⟩ [⟨"u", 0, 24, "t1"⟩, ⟨"u", 1, 24, "t2"⟩]) "u" 1
        true).length ≤ 1) := by
  refine ⟨?_, ?_, ?_⟩
  · exact (createUserSession_single_active.1 ⟨["u"], [⟨"u", "t1", 24, true⟩]⟩ "u" 1 24 "t2"
      ⟨["u"], [⟨"u", "t1", 24, false⟩, ⟨"u", "t2", 25, true⟩]⟩ ⟨"u", "t2", 25, true⟩
      rfl).1
  · exact createUserSession_single_active.2.1 ⟨["u"], []⟩
      [⟨"u", 0, 24, "t1"⟩, ⟨"u", 1, 24, "t2"⟩] (fun _ => Nat.zero_le 1) "u"
  · exact createUserSession_single_active.2.2 ⟨["u"], []⟩
      [⟨"u", 0, 24, "t1"⟩, ⟨"u", 1, 24, "t2"⟩] (fun _ => Nat.zero_le 1) "u" 1
